import Mathlib

/-!
Verification of the split convection system of the ember flame solver.

The repository snapshot ships the class declarations (src/convectionSystem.h)
for ConvectionSystemUTW, ConvectionSystemY and ConvectionSystemSplit, but the
member function bodies are not among the snapshot files. The data model below
is taken from the header; each function body is modelled from the
specification (spec.md, sections 3 and 4), and its doc comment says so.

Numbers are embedded as rationals: the algorithms are plain field arithmetic,
and rationals keep every definition executable. Node arrays (dvector) are
embedded as total functions from node index to rational, together with the
node count nPoints; per the header, the grid coefficients x, hh, r and the
geometry flag alpha of the GridBased base class, the thermodynamic pressure p
and gas constant R of the CanteraGas collaborator, and the strain rate
aStrain of the strain function are inlined as fields.
-/

namespace Ember

/-- Continuity boundary condition tag, source enum ContinuityBoundaryCondition::BC
with variants Left, Zero and Qdot. -/
inductive ContinuityBC where
  | Left
  | Zero
  | Qdot
deriving DecidableEq

/-- State of the coupled convection system for U, T and Wmx, mirroring the
members of class ConvectionSystemUTW in src/convectionSystem.h (state arrays,
left boundary values, density derivative, split constants, continuity
boundary condition data) together with the inlined grid and gas data. -/
structure ConvectionSystemUTW where
  nPoints : ℕ
  x : ℕ → ℚ
  hh : ℕ → ℚ
  r : ℕ → ℚ
  alpha : ℕ
  aStrain : ℚ
  U : ℕ → ℚ
  T : ℕ → ℚ
  Wmx : ℕ → ℚ
  Tleft : ℚ
  Wleft : ℚ
  rVzero : ℚ
  drhodt : ℕ → ℚ
  splitConstT : ℕ → ℚ
  splitConstW : ℕ → ℚ
  splitConstU : ℕ → ℚ
  p : ℚ
  R : ℚ
  continuityBC : ContinuityBC
  jContBC : ℕ
  xVzero : ℚ

/-- Modelled from the spec: temperature seen by the UTW right-hand side after
the left Dirichlet overwrite T[0] = Tleft of step 1 of the RHS algorithm. -/
def utwT (s : ConvectionSystemUTW) (j : ℕ) : ℚ :=
  if j = 0 then s.Tleft else s.T j

/-- Modelled from the spec: molecular weight seen by the UTW right-hand side
after the left Dirichlet overwrite Wmx[0] = Wleft of step 1. -/
def utwW (s : ConvectionSystemUTW) (j : ℕ) : ℚ :=
  if j = 0 then s.Wleft else s.Wmx j

/-- Modelled from the spec: step 2 of the RHS recomputes the density from the
ideal gas relation, rho[j] = p * Wmx[j] / (R * T[j]), at the current state. -/
def utwRho (s : ConvectionSystemUTW) (j : ℕ) : ℚ :=
  s.p * utwW s j / (s.R * utwT s j)

/-- Integrand of the discrete continuity equation on cell j, over explicit
arrays: r[j]^alpha * (drhodt[j] + rho[j] * (U[j] + U[j+1]) * aStrain / 2),
the bracket of the spec recurrence for rV. -/
def contTermA (r : ℕ → ℚ) (alpha : ℕ) (drhodt rho U : ℕ → ℚ) (a : ℚ) (j : ℕ) : ℚ :=
  r j ^ alpha * (drhodt j + rho j * (U j + U (j + 1)) * a / 2)

/-- Continuity integrand of a UTW system state. -/
def contTerm (s : ConvectionSystemUTW) : ℕ → ℚ :=
  contTermA s.r s.alpha s.drhodt (utwRho s) s.U s.aStrain

/-- Rightward continuity integration: value at node j0 + m given the value v0
at the anchor node j0, following the spec recurrence
rV[j] = rV[j-1] - hh[j-1] * contTerm[j-1]. -/
def rV_stepR (hh ct : ℕ → ℚ) (j0 : ℕ) (v0 : ℚ) : ℕ → ℚ
  | 0 => v0
  | m + 1 => rV_stepR hh ct j0 v0 m - hh (j0 + m) * ct (j0 + m)

/-- Leftward continuity integration: value at node j0 - m given the value v0
at the anchor node j0, the same recurrence read in the other direction,
rV[j] = rV[j+1] + hh[j] * contTerm[j]. -/
def rV_stepL (hh ct : ℕ → ℚ) (j0 : ℕ) (v0 : ℚ) : ℕ → ℚ
  | 0 => v0
  | m + 1 => rV_stepL hh ct j0 v0 m + hh (j0 - (m + 1)) * ct (j0 - (m + 1))

/-- Node at which the continuity integration is anchored: node 0 for the Left
condition, jContBC for Zero and Qdot. -/
def anchorIndexA (bc : ContinuityBC) (jCont : ℕ) : ℕ :=
  match bc with
  | ContinuityBC.Left => 0
  | ContinuityBC.Zero => jCont
  | ContinuityBC.Qdot => jCont

/-- Anchor value of the continuity integration: rVzero for Left; zero for
Qdot; for Zero, the value obtained at node jContBC by integrating from the
stagnation point xVzero, where rV vanishes, back to x[jContBC]. -/
def anchorValueA (bc : ContinuityBC) (ct x : ℕ → ℚ) (jCont : ℕ) (xVz rVz : ℚ) : ℚ :=
  match bc with
  | ContinuityBC.Left => rVz
  | ContinuityBC.Zero => (xVz - x jCont) * ct jCont
  | ContinuityBC.Qdot => 0

/-- Value at node j of the continuity integration anchored at node j0 with
value v0: integrate rightward for j at or past the anchor, leftward before it. -/
def rV_integrate (hh ct : ℕ → ℚ) (j0 : ℕ) (v0 : ℚ) (j : ℕ) : ℚ :=
  if j0 ≤ j then rV_stepR hh ct j0 v0 (j - j0)
  else rV_stepL hh ct j0 v0 (j0 - j)

/-- Modelled from the spec: step 3 of the UTW RHS, the mass flux array rV
produced by integrating the continuity equation outward from the anchor
selected by the installed continuity boundary condition. -/
def utw_rV (s : ConvectionSystemUTW) : ℕ → ℚ :=
  rV_integrate s.hh (contTerm s)
    (anchorIndexA s.continuityBC s.jContBC)
    (anchorValueA s.continuityBC (contTerm s) s.x s.jContBC s.xVzero s.rVzero)

/-- Modelled from the spec: step 4 of the UTW RHS, V[j] = rV[j] / r[j]^alpha. -/
def utw_V (s : ConvectionSystemUTW) (j : ℕ) : ℚ :=
  utw_rV s j / s.r j ^ s.alpha

/-- Upwinded first difference over explicit arrays: at node j, the backward
difference when the local velocity is nonnegative, else the forward one. -/
def upwindA (hh V f : ℕ → ℚ) (j : ℕ) : ℚ :=
  if 0 ≤ V j then (f j - f (j - 1)) / hh (j - 1)
  else (f (j + 1) - f j) / hh j

/-- Modelled from the spec: step 5, upwinded dU/dx. -/
def utw_dUdx (s : ConvectionSystemUTW) : ℕ → ℚ :=
  upwindA s.hh (utw_V s) s.U

/-- Modelled from the spec: step 5, upwinded dT/dx, using Tleft as the value
at node 0 (the Dirichlet overwrite). -/
def utw_dTdx (s : ConvectionSystemUTW) : ℕ → ℚ :=
  upwindA s.hh (utw_V s) (utwT s)

/-- Modelled from the spec: step 5, upwinded dWmx/dx, using Wleft at node 0. -/
def utw_dWdx (s : ConvectionSystemUTW) : ℕ → ℚ :=
  upwindA s.hh (utw_V s) (utwW s)

/-- Modelled from the spec: step 6, dU/dt[j] = -V[j] * dU/dx[j] + splitConstU[j];
at j = 0 the local splitting constant only. -/
def utw_dUdt (s : ConvectionSystemUTW) (j : ℕ) : ℚ :=
  if j = 0 then s.splitConstU 0
  else -utw_V s j * utw_dUdx s j + s.splitConstU j

/-- Modelled from the spec: step 6, dT/dt[j] = -V[j] * dT/dx[j] + splitConstT[j];
at j = 0 the Dirichlet prescription dT/dt[0] = 0. -/
def utw_dTdt (s : ConvectionSystemUTW) (j : ℕ) : ℚ :=
  if j = 0 then 0
  else -utw_V s j * utw_dTdx s j + s.splitConstT j

/-- Modelled from the spec: step 6, dWmx/dt[j] = -V[j] * dW/dx[j] + splitConstW[j];
at j = 0 the Dirichlet prescription dWmx/dt[0] = 0. -/
def utw_dWdt (s : ConvectionSystemUTW) (j : ℕ) : ℚ :=
  if j = 0 then 0
  else -utw_V s j * utw_dWdx s j + s.splitConstW j

/-- Modelled from the spec: one accepted explicit integrator step of size dt on
the packed UTW state (the convection step uses an explicit integrator),
followed by the unpacking that overwrites the left Dirichlet values, as the
RHS and unroll_y do. Only the state arrays U, T and Wmx evolve. -/
def utwStep (dt : ℚ) (s : ConvectionSystemUTW) : ConvectionSystemUTW :=
  { s with
    U := fun j => s.U j + dt * utw_dUdt s j
    T := fun j => if j = 0 then s.Tleft else s.T j + dt * utw_dTdt s j
    Wmx := fun j => if j = 0 then s.Wleft else s.Wmx j + dt * utw_dWdt s j }

/-- First index of a maximal element of a list of rationals (argmax, ties
resolved to the leftmost, as a maxloc scan from the left does). -/
def argmaxIdx : List ℚ → ℕ
  | [] => 0
  | [_] => 0
  | a :: b :: rest =>
    if (b :: rest).getD (argmaxIdx (b :: rest)) 0 ≤ a then 0
    else argmaxIdx (b :: rest) + 1

/-- First cell index j < m at which f changes sign across [j, j+1], detected by
a nonpositive product, scanning from the left (the source picks the first
sign change from the left). -/
def findCrossing (f : ℕ → ℚ) : ℕ → Option ℕ
  | 0 => none
  | m + 1 =>
    match findCrossing f m with
    | some j => some j
    | none => if f m * f (m + 1) ≤ 0 then some m else none

/-- Modelled from the spec: updateContinuityBoundaryCondition(qdot, newBC).
Left installs the Left condition. Qdot with a nonempty qdot installs Qdot and
sets jContBC to the argmax of qdot; with an empty qdot it reports an error
(second component true) and leaves the state unchanged. Zero looks for a sign
change of the current rV; if none exists it reports an error and leaves the
state unchanged, otherwise it installs Zero, sets jContBC to the first
crossing cell and xVzero to the linearly interpolated root inside that cell.
The error is returned as a flag so that the previous state is kept on
misconfiguration. -/
def updateContinuityBoundaryCondition (s : ConvectionSystemUTW) (qdot : List ℚ)
    (newBC : ContinuityBC) : ConvectionSystemUTW × Bool :=
  match newBC with
  | ContinuityBC.Left => ({ s with continuityBC := ContinuityBC.Left }, false)
  | ContinuityBC.Qdot =>
    match qdot with
    | [] => (s, true)
    | _ :: _ =>
      ({ s with continuityBC := ContinuityBC.Qdot, jContBC := argmaxIdx qdot }, false)
  | ContinuityBC.Zero =>
    match findCrossing (utw_rV s) (s.nPoints - 1) with
    | none => (s, true)
    | some j =>
      ({ s with continuityBC := ContinuityBC.Zero
                jContBC := j
                xVzero := s.x j + (s.x (j + 1) - s.x j) *
                  (utw_rV s j / (utw_rV s j - utw_rV s (j + 1))) }, false)

/-- State of the convection system for one species, mirroring the members of
class ConvectionSystemY in src/convectionSystem.h: left boundary value, species
index, split constant, active node range, the shared time-series velocity
interpolator, the two quasi-2D interpolators, and the quasi2d flag. -/
structure ConvectionSystemY where
  Yleft : ℚ
  k : ℕ
  splitConst : ℕ → ℚ
  startIndex : ℕ
  stopIndex : ℕ
  vInterp : List (ℚ × (ℕ → ℚ))
  vzInterp : ℚ → ℚ → ℚ
  vrInterp : ℚ → ℚ → ℚ
  quasi2d : Bool

/-- Default construction of a species system: the header constructor
ConvectionSystemY() : quasi2d(false) initializes quasi2d to false; the
remaining members are default constructed (empty containers and zero scalars
in this model). -/
def mkConvectionSystemY : ConvectionSystemY where
  Yleft := 0
  k := 0
  splitConst := fun _ => 0
  startIndex := 0
  stopIndex := 0
  vInterp := []
  vzInterp := fun _ _ => 0
  vrInterp := fun _ _ => 0
  quasi2d := false

/-- Modelled from the spec: linear interpolation in time between the bracketing
samples of the time-keyed velocity map (vecInterpolator, a map from time to a
velocity profile kept in increasing key order). Before the first bracketing
pair the first profile is used; past the last sample the last profile is used. -/
def interp1 : List (ℚ × (ℕ → ℚ)) → ℚ → ℕ → ℚ
  | [], _, _ => 0
  | [(_, v0)], _, j => v0 j
  | (t0, v0) :: (t1, v1) :: rest, t, j =>
    if t ≤ t1 then
      if t1 = t0 then v0 j
      else v0 j + (v1 j - v0 j) * (t - t0) / (t1 - t0)
    else interp1 ((t1, v1) :: rest) t j

/-- Modelled from the spec: update_v(t). In the 1D path (quasi2d false) the
velocity at node j is read from the shared time-series interpolator vInterp by
linear interpolation in t; in the quasi-2D path it is sampled from the
externally supplied bilinear interpolators at (x[j], t), the axial sample
vzInterp giving the effective normal velocity. -/
def update_v (x : ℕ → ℚ) (sys : ConvectionSystemY) (t : ℚ) (j : ℕ) : ℚ :=
  if sys.quasi2d then sys.vzInterp (x j) t
  else interp1 sys.vInterp t j

/-- Value of the species field used for differencing: the left Dirichlet value
Yleft stands at node 0 when the active range starts at the domain boundary. -/
def speciesYeffA (start : ℕ) (Yl : ℚ) (Y : ℕ → ℚ) (j : ℕ) : ℚ :=
  if start = 0 ∧ j = 0 then Yl else Y j

/-- Modelled from the spec: upwinded dY/dx with the same backward/forward rule
as the UTW system; at the first active node of an interior sub-domain
(startIndex > 0) upwinding falls back to forward differencing. -/
def speciesDYdxA (hh v : ℕ → ℚ) (start : ℕ) (Yl : ℚ) (Y : ℕ → ℚ) (j : ℕ) : ℚ :=
  if 0 ≤ v j then
    if j = start ∧ 0 < start then
      (speciesYeffA start Yl Y (j + 1) - speciesYeffA start Yl Y j) / hh j
    else (speciesYeffA start Yl Y j - speciesYeffA start Yl Y (j - 1)) / hh (j - 1)
  else (speciesYeffA start Yl Y (j + 1) - speciesYeffA start Yl Y j) / hh j

/-- Modelled from the spec: the species RHS at velocity array v. When the
active range has fewer than two cells (stopIndex - startIndex < 2) the
derivative is zero everywhere (the species is inert on this step); nodes
outside the active range are not touched by this solver (derivative zero);
on active nodes, dY/dt[j] = -v[j] * dY/dx[j] + splitConst[j]. The function is
total: no error is produced. -/
def species_f (hh v : ℕ → ℚ) (sys : ConvectionSystemY) (Y : ℕ → ℚ) (j : ℕ) : ℚ :=
  if sys.stopIndex - sys.startIndex < 2 then 0
  else if j < sys.startIndex ∨ sys.stopIndex < j then 0
  else -v j * speciesDYdxA hh v sys.startIndex sys.Yleft Y j + sys.splitConst j

/-- Modelled from the spec: the species RHS at time t, reading its velocity
through update_v. -/
def species_rhs (hh x : ℕ → ℚ) (sys : ConvectionSystemY) (t : ℚ) (Y : ℕ → ℚ) : ℕ → ℚ :=
  species_f hh (update_v x sys t) sys Y

/-- State of the coordinator, mirroring the members of class
ConvectionSystemSplit: the owned UTW system, the species systems with the
species matrix Y, the current time, and the outputs V, rho and the time
derivatives updated by evaluate(). -/
structure ConvectionSystemSplit where
  utw : ConvectionSystemUTW
  nSpec : ℕ
  species : ℕ → ConvectionSystemY
  Y : ℕ → ℕ → ℚ
  t : ℚ
  V : ℕ → ℚ
  rho : ℕ → ℚ
  dUdt : ℕ → ℚ
  dTdt : ℕ → ℚ
  dWdt : ℕ → ℚ
  dYdt : ℕ → ℕ → ℚ

/-- Modelled from the spec: evaluate() computes V, rho and all time
derivatives at the current state without advancing time. The species
derivatives read the velocity just published for the current time, which is
the V the UTW system computes at the current state. The state variables are
not modified. -/
def evaluate (c : ConvectionSystemSplit) : ConvectionSystemSplit :=
  { c with
    V := utw_V c.utw
    rho := utwRho c.utw
    dUdt := utw_dUdt c.utw
    dTdt := utw_dTdt c.utw
    dWdt := utw_dWdt c.utw
    dYdt := fun k => species_f c.utw.hh (utw_V c.utw) (c.species k) (c.Y k) }

/-- Modelled from the spec: the coordinator advances every species solver,
none skipped; one explicit step of size dt on each species row, at the
velocity published by the UTW phase. -/
def speciesStepAll (c : ConvectionSystemSplit) (dt : ℚ) : ConvectionSystemSplit :=
  { c with
    Y := fun k j => c.Y k j + dt * species_f c.utw.hh (utw_V c.utw) (c.species k) (c.Y k) j }

/-- Concrete three-node planar UTW system with uniform unit state, zero
velocity and zero sources, used to instantiate the theorems below. -/
def sampleSys : ConvectionSystemUTW where
  nPoints := 3
  x := fun j => (j : ℚ)
  hh := fun _ => 1
  r := fun _ => 1
  alpha := 0
  aStrain := 1
  U := fun _ => 0
  T := fun _ => 1
  Wmx := fun _ => 1
  Tleft := 1
  Wleft := 1
  rVzero := 0
  drhodt := fun _ => 0
  splitConstT := fun _ => 0
  splitConstW := fun _ => 0
  splitConstU := fun _ => 0
  p := 1
  R := 1
  continuityBC := ContinuityBC.Left
  jContBC := 0
  xVzero := 0

/-- Variant of sampleSys with a nonzero tangential velocity U, so the strain
contribution to the continuity integrand does not vanish. -/
def cexSys : ConvectionSystemUTW := { sampleSys with U := fun _ => 1 }

/-- Variant of sampleSys with rVzero = 1, whose mass flux is identically one
and therefore has no sign change. -/
def flatSys : ConvectionSystemUTW := { sampleSys with rVzero := 1 }

/-- Concrete species system active on nodes 0..2 with the 1D velocity path. -/
def sampleSpecies : ConvectionSystemY where
  Yleft := 0
  k := 0
  splitConst := fun _ => 0
  startIndex := 0
  stopIndex := 2
  vInterp := [(0, fun _ => 1), (1, fun _ => 1)]
  vzInterp := fun _ _ => 0
  vrInterp := fun _ _ => 0
  quasi2d := false

/-- Species system whose active range has fewer than two cells. -/
def inertSpecies : ConvectionSystemY := { sampleSpecies with stopIndex := 1 }

/-- Concrete coordinator state over sampleSys with one species. -/
def sampleCoord : ConvectionSystemSplit where
  utw := sampleSys
  nSpec := 1
  species := fun _ => sampleSpecies
  Y := fun _ _ => 1
  t := 0
  V := fun _ => 0
  rho := fun _ => 0
  dUdt := fun _ => 0
  dTdt := fun _ => 0
  dWdt := fun _ => 0
  dYdt := fun _ _ => 0

/-- Coordinator state whose single species has an inert active range. -/
def inertCoord : ConvectionSystemSplit := { sampleCoord with species := fun _ => inertSpecies }

/-- Pointwise perturbation of an array: add d to the entry at index j. -/
def updAt (f : ℕ → ℚ) (j : ℕ) (d : ℚ) (i : ℕ) : ℚ :=
  if i = j then f i + d else f i

/-- Proposition saying two UTW systems agree on every field other than the
continuity boundary condition data (continuityBC, jContBC, xVzero). -/
def preservedUTW (a b : ConvectionSystemUTW) : Prop :=
  a.nPoints = b.nPoints ∧ a.x = b.x ∧ a.hh = b.hh ∧ a.r = b.r ∧ a.alpha = b.alpha
  ∧ a.aStrain = b.aStrain ∧ a.U = b.U ∧ a.T = b.T ∧ a.Wmx = b.Wmx ∧ a.Tleft = b.Tleft
  ∧ a.Wleft = b.Wleft ∧ a.rVzero = b.rVzero ∧ a.drhodt = b.drhodt
  ∧ a.splitConstT = b.splitConstT ∧ a.splitConstW = b.splitConstW
  ∧ a.splitConstU = b.splitConstU ∧ a.p = b.p ∧ a.R = b.R

/-- Variant of sampleSys with the temperature split constant perturbed by one
at node 0 only. -/
def cexSplitT : ConvectionSystemUTW :=
  { sampleSys with splitConstT := fun i => if i = 0 then 1 else 0 }

/-- The system updateContinuityBoundaryCondition produces from sampleSys for a
Qdot request with profile [1, 3, 2]. -/
def qdotSys : ConvectionSystemUTW :=
  { sampleSys with continuityBC := ContinuityBC.Qdot, jContBC := argmaxIdx [1, 3, 2] }

/-! ## Helper lemmas on the continuity integration, argmax and crossing scan -/

theorem updAt_self (f : ℕ → ℚ) (j : ℕ) (d : ℚ) : updAt f j d j = f j + d := by
  simp [updAt]

theorem updAt_other (f : ℕ → ℚ) (j : ℕ) (d : ℚ) (i : ℕ) (h : i ≠ j) :
    updAt f j d i = f i := by
  simp [updAt, h]

theorem rV_integrate_self (hh ct : ℕ → ℚ) (j0 : ℕ) (v0 : ℚ) :
    rV_integrate hh ct j0 v0 j0 = v0 := by
  simp [rV_integrate, rV_stepR]

theorem rV_integrate_succ_of_le (hh ct : ℕ → ℚ) (j0 : ℕ) (v0 : ℚ) (j : ℕ) (h : j0 ≤ j) :
    rV_integrate hh ct j0 v0 (j + 1) = rV_integrate hh ct j0 v0 j - hh j * ct j := by
  have h1 : j0 ≤ j + 1 := by omega
  have h2 : j + 1 - j0 = (j - j0) + 1 := by omega
  have h3 : j0 + (j - j0) = j := by omega
  simp only [rV_integrate, if_pos h1, if_pos h, h2, rV_stepR, h3]

theorem rV_integrate_of_lt (hh ct : ℕ → ℚ) (j0 : ℕ) (v0 : ℚ) (j : ℕ) (h : j < j0) :
    rV_integrate hh ct j0 v0 j = rV_integrate hh ct j0 v0 (j + 1) + hh j * ct j := by
  rcases Nat.lt_or_ge (j + 1) j0 with hlt | hge
  · have hm : j0 - j = (j0 - (j + 1)) + 1 := by omega
    have hi : j0 - ((j0 - (j + 1)) + 1) = j := by omega
    simp only [rV_integrate, if_neg (by omega : ¬ j0 ≤ j),
      if_neg (by omega : ¬ j0 ≤ j + 1), hm, rV_stepL, hi]
  · have heq : j0 = j + 1 := by omega
    subst heq
    have hm : j + 1 - j = 1 := by omega
    have h0 : j + 1 - (j + 1) = 0 := by omega
    simp only [rV_integrate, if_neg (by omega : ¬ j + 1 ≤ j),
      if_pos (le_refl (j + 1)), hm, h0, rV_stepL, rV_stepR]
    have hi : j + 1 - (0 + 1) = j := by omega
    simp only [hi]

theorem utw_rV_of_left (s : ConvectionSystemUTW) (h : s.continuityBC = ContinuityBC.Left) :
    utw_rV s = rV_integrate s.hh (contTerm s) 0 s.rVzero := by
  simp [utw_rV, anchorIndexA, anchorValueA, h]

theorem utw_rV_of_qdot (s : ConvectionSystemUTW) (h : s.continuityBC = ContinuityBC.Qdot) :
    utw_rV s = rV_integrate s.hh (contTerm s) s.jContBC 0 := by
  simp [utw_rV, anchorIndexA, anchorValueA, h]

theorem argmaxIdx_lt_length (q : List ℚ) (h : q ≠ []) : argmaxIdx q < q.length := by
  induction q with
  | nil => exact absurd rfl h
  | cons a rest ih =>
    cases rest with
    | nil => simp [argmaxIdx]
    | cons b t =>
      by_cases hc : (b :: t).getD (argmaxIdx (b :: t)) 0 ≤ a
      · simp only [argmaxIdx]
        rw [if_pos hc]
        simp
      · have hlt := ih (by simp)
        simp only [argmaxIdx]
        rw [if_neg hc]
        simp only [List.length_cons] at hlt ⊢
        omega

theorem argmaxIdx_is_max (q : List ℚ) :
    ∀ i, i < q.length → q.getD i 0 ≤ q.getD (argmaxIdx q) 0 := by
  induction q with
  | nil => intro i hi; simp at hi
  | cons a rest ih =>
    cases rest with
    | nil =>
      intro i hi
      have h0 : i = 0 := by simp at hi; omega
      subst h0
      simp [argmaxIdx]
    | cons b t =>
      intro i hi
      by_cases hc : (b :: t).getD (argmaxIdx (b :: t)) 0 ≤ a
      · simp only [argmaxIdx]
        rw [if_pos hc, List.getD_cons_zero]
        cases i with
        | zero => rw [List.getD_cons_zero]
        | succ i2 =>
          have h2 := ih i2 (by simp only [List.length_cons] at hi ⊢; omega)
          calc (a :: b :: t).getD (i2 + 1) 0 = (b :: t).getD i2 0 := List.getD_cons_succ ..
            _ ≤ (b :: t).getD (argmaxIdx (b :: t)) 0 := h2
            _ ≤ a := hc
      · simp only [argmaxIdx]
        rw [if_neg hc, List.getD_cons_succ]
        cases i with
        | zero =>
          rw [List.getD_cons_zero]
          exact le_of_lt (lt_of_not_le hc)
        | succ i2 =>
          rw [List.getD_cons_succ]
          exact ih i2 (by simp only [List.length_cons] at hi ⊢; omega)

theorem findCrossing_eq_none (f : ℕ → ℚ) (m : ℕ)
    (h : ∀ i, i < m → 0 < f i * f (i + 1)) : findCrossing f m = none := by
  induction m with
  | zero => rfl
  | succ n ih =>
    have h1 : findCrossing f n = none := ih (fun i hi => h i (by omega))
    simp only [findCrossing, h1]
    rw [if_neg (not_le.mpr (h n (by omega)))]

theorem utwStep_iterate_sides (dt : ℚ) (k : ℕ) (s : ConvectionSystemUTW) :
    ((utwStep dt)^[k] s).Tleft = s.Tleft ∧ ((utwStep dt)^[k] s).Wleft = s.Wleft := by
  induction k with
  | zero => exact ⟨rfl, rfl⟩
  | succ n ih =>
    rw [Function.iterate_succ_apply']
    exact ⟨ih.1, ih.2⟩

/-! ## Invariance of the UTW outputs under split constant updates -/

theorem utwRho_updU (s : ConvectionSystemUTW) (f : ℕ → ℚ) :
    utwRho { s with splitConstU := f } = utwRho s := rfl

theorem utwRho_updT (s : ConvectionSystemUTW) (f : ℕ → ℚ) :
    utwRho { s with splitConstT := f } = utwRho s := rfl

theorem utwRho_updW (s : ConvectionSystemUTW) (f : ℕ → ℚ) :
    utwRho { s with splitConstW := f } = utwRho s := rfl

theorem utw_rV_updU (s : ConvectionSystemUTW) (f : ℕ → ℚ) :
    utw_rV { s with splitConstU := f } = utw_rV s := rfl

theorem utw_rV_updT (s : ConvectionSystemUTW) (f : ℕ → ℚ) :
    utw_rV { s with splitConstT := f } = utw_rV s := rfl

theorem utw_rV_updW (s : ConvectionSystemUTW) (f : ℕ → ℚ) :
    utw_rV { s with splitConstW := f } = utw_rV s := rfl

theorem utw_V_updU (s : ConvectionSystemUTW) (f : ℕ → ℚ) :
    utw_V { s with splitConstU := f } = utw_V s := rfl

theorem utw_V_updT (s : ConvectionSystemUTW) (f : ℕ → ℚ) :
    utw_V { s with splitConstT := f } = utw_V s := rfl

theorem utw_V_updW (s : ConvectionSystemUTW) (f : ℕ → ℚ) :
    utw_V { s with splitConstW := f } = utw_V s := rfl

theorem utw_dUdx_updU (s : ConvectionSystemUTW) (f : ℕ → ℚ) :
    utw_dUdx { s with splitConstU := f } = utw_dUdx s := rfl

theorem utw_dTdx_updT (s : ConvectionSystemUTW) (f : ℕ → ℚ) :
    utw_dTdx { s with splitConstT := f } = utw_dTdx s := rfl

theorem utw_dWdx_updW (s : ConvectionSystemUTW) (f : ℕ → ℚ) :
    utw_dWdx { s with splitConstW := f } = utw_dWdx s := rfl

theorem utw_dTdt_updU (s : ConvectionSystemUTW) (f : ℕ → ℚ) :
    utw_dTdt { s with splitConstU := f } = utw_dTdt s := rfl

theorem utw_dWdt_updU (s : ConvectionSystemUTW) (f : ℕ → ℚ) :
    utw_dWdt { s with splitConstU := f } = utw_dWdt s := rfl

theorem utw_dUdt_updT (s : ConvectionSystemUTW) (f : ℕ → ℚ) :
    utw_dUdt { s with splitConstT := f } = utw_dUdt s := rfl

theorem utw_dWdt_updT (s : ConvectionSystemUTW) (f : ℕ → ℚ) :
    utw_dWdt { s with splitConstT := f } = utw_dWdt s := rfl

theorem utw_dUdt_updW (s : ConvectionSystemUTW) (f : ℕ → ℚ) :
    utw_dUdt { s with splitConstW := f } = utw_dUdt s := rfl

theorem utw_dTdt_updW (s : ConvectionSystemUTW) (f : ℕ → ℚ) :
    utw_dTdt { s with splitConstW := f } = utw_dTdt s := rfl

/-! ## Claim theorems -/

/-- C1 (amended): for the UTW convection RHS with continuity BC Left, if every
split constant array is identically zero, the installed drhodt is identically
zero, and in addition the tangential velocity U is identically zero (so the
strain contribution to the continuity integrand vanishes), then the computed
mass flux rV is constant in x: rV[j] = rV[0] = rVzero at every node. -/
theorem rV_constant_of_no_sources (s : ConvectionSystemUTW)
    (hbc : s.continuityBC = ContinuityBC.Left)
    (_hsU : ∀ j, s.splitConstU j = 0) (_hsT : ∀ j, s.splitConstT j = 0)
    (_hsW : ∀ j, s.splitConstW j = 0) (hd : ∀ j, s.drhodt j = 0)
    (hU : ∀ j, s.U j = 0) :
    (∀ j, utw_rV s j = utw_rV s 0) ∧ utw_rV s 0 = s.rVzero := by
  have hct : ∀ j, contTerm s j = 0 := by
    intro j
    simp [contTerm, contTermA, hd, hU]
  have hz : ∀ j, rV_integrate s.hh (contTerm s) 0 s.rVzero j = s.rVzero := by
    intro j
    induction j with
    | zero => exact rV_integrate_self s.hh (contTerm s) 0 s.rVzero
    | succ n ihn =>
      rw [rV_integrate_succ_of_le s.hh (contTerm s) 0 s.rVzero n (Nat.zero_le n), hct n, ihn]
      ring
  constructor
  · intro j
    rw [utw_rV_of_left s hbc, hz j, hz 0]
  · rw [utw_rV_of_left s hbc]
    exact hz 0

/-- C1 witness: the hypotheses of rV_constant_of_no_sources hold at the
concrete system sampleSys and the conclusion evaluates there. -/
theorem rV_constant_of_no_sources_witness :
    (∀ j, utw_rV sampleSys j = utw_rV sampleSys 0) ∧ utw_rV sampleSys 0 = sampleSys.rVzero :=
  rV_constant_of_no_sources sampleSys rfl (fun _ => rfl) (fun _ => rfl) (fun _ => rfl)
    (fun _ => rfl) (fun _ => rfl)

/-- C1 counterexample: at the concrete system cexSys every split constant
array and drhodt are identically zero and the continuity BC is Left, yet
rV[1] differs from rV[0], because the strain term rho * (U[j] + U[j+1]) *
aStrain / 2 of the continuity integrand does not vanish when U is not zero.
So the claim as stated (without a hypothesis on U) is false. -/
theorem rV_constant_counterexample :
    cexSys.continuityBC = ContinuityBC.Left
    ∧ cexSys.splitConstU = (fun _ => 0)
    ∧ cexSys.splitConstT = (fun _ => 0)
    ∧ cexSys.splitConstW = (fun _ => 0)
    ∧ cexSys.drhodt = (fun _ => 0)
    ∧ utw_rV cexSys 1 ≠ utw_rV cexSys 0 := by
  refine ⟨rfl, rfl, rfl, rfl, rfl, ?_⟩
  simp [cexSys, sampleSys, utw_rV, rV_integrate, rV_stepR, contTerm, contTermA,
    utwRho, utwT, utwW, anchorIndexA, anchorValueA]

/-- C2: the left Dirichlet boundary values are preserved by any number of
integration steps of the UTW solver: starting from a state whose left values
agree with the prescriptions, after k steps T[0] = Tleft and Wmx[0] = Wleft,
and the RHS prescribes dT/dt[0] = dWmx/dt[0] = 0. -/
theorem left_dirichlet_preserved (dt : ℚ) (s : ConvectionSystemUTW)
    (hT : s.T 0 = s.Tleft) (hW : s.Wmx 0 = s.Wleft) (k : ℕ) :
    ((utwStep dt)^[k] s).T 0 = s.Tleft ∧ ((utwStep dt)^[k] s).Wmx 0 = s.Wleft
    ∧ utw_dTdt s 0 = 0 ∧ utw_dWdt s 0 = 0 := by
  refine ⟨?_, ?_, rfl, rfl⟩
  · cases k with
    | zero => exact hT
    | succ n =>
      rw [Function.iterate_succ_apply']
      have hs := utwStep_iterate_sides dt n s
      show (utwStep dt ((utwStep dt)^[n] s)).T 0 = s.Tleft
      simpa [utwStep] using hs.1
  · cases k with
    | zero => exact hW
    | succ n =>
      rw [Function.iterate_succ_apply']
      have hs := utwStep_iterate_sides dt n s
      show (utwStep dt ((utwStep dt)^[n] s)).Wmx 0 = s.Wleft
      simpa [utwStep] using hs.2

/-- C2 witness: the boundary preservation instantiated at sampleSys after two
steps of size one. -/
theorem left_dirichlet_preserved_witness :
    ((utwStep 1)^[2] sampleSys).T 0 = sampleSys.Tleft
    ∧ ((utwStep 1)^[2] sampleSys).Wmx 0 = sampleSys.Wleft
    ∧ utw_dTdt sampleSys 0 = 0 ∧ utw_dWdt sampleSys 0 = 0 :=
  left_dirichlet_preserved 1 sampleSys rfl rfl 2

/-- C8: every UTW RHS evaluation recomputes the density from the ideal gas
relation at the current (Dirichlet overwritten) temperature and molecular
weight: rho[j] * (R * T[j]) = p * Wmx[j] at every node where R * T[j] is
nonzero, and the values entering at node 0 are the prescriptions Tleft and
Wleft, so rho, T and Wmx are mutually consistent after the evaluation. -/
theorem ideal_gas_consistency (s : ConvectionSystemUTW) (j : ℕ)
    (hTj : s.R * utwT s j ≠ 0) :
    utwRho s j * (s.R * utwT s j) = s.p * utwW s j
    ∧ utwT s 0 = s.Tleft ∧ utwW s 0 = s.Wleft := by
  refine ⟨?_, rfl, rfl⟩
  unfold utwRho
  exact div_mul_cancel₀ _ hTj

/-- C8 witness: the ideal gas consistency instantiated at node 1 of
sampleSys, where R * T = 1 is nonzero. -/
theorem ideal_gas_consistency_witness :
    utwRho sampleSys 1 * (sampleSys.R * utwT sampleSys 1) = sampleSys.p * utwW sampleSys 1
    ∧ utwT sampleSys 0 = sampleSys.Tleft ∧ utwW sampleSys 0 = sampleSys.Wleft :=
  ideal_gas_consistency sampleSys 1 (by norm_num [sampleSys, utwT])

/-- C9: a species system whose active range satisfies stopIndex - startIndex
< 2 produces a zero time derivative at every node and for every velocity
array, and the coordinator still integrates it rather than skipping it: the
species step applies to it and leaves its row of Y unchanged. The model RHS
is total, so no error is produced. -/
theorem inert_species_integrated (c : ConvectionSystemSplit) (k : ℕ) (dt : ℚ)
    (hin : (c.species k).stopIndex - (c.species k).startIndex < 2) :
    (∀ v Y j, species_f c.utw.hh v (c.species k) Y j = 0)
    ∧ (∀ j, (speciesStepAll c dt).Y k j = c.Y k j) := by
  constructor
  · intro v Y j
    simp [species_f, hin]
  · intro j
    simp [speciesStepAll, species_f, hin]

/-- C9 witness: the inert species behaviour instantiated at the concrete
coordinator inertCoord, whose single species has active range 0..1. -/
theorem inert_species_integrated_witness :
    (∀ v Y j, species_f inertCoord.utw.hh v (inertCoord.species 0) Y j = 0)
    ∧ (∀ j, (speciesStepAll inertCoord 1).Y 0 j = inertCoord.Y 0 j) :=
  inert_species_integrated inertCoord 0 1 (by decide)

/-- C10: a freshly constructed ConvectionSystemY has quasi2d = false, and
with quasi2d = false the species velocity is read from the shared
time-series interpolator vInterp, never from the quasi-2D interpolators:
replacing vzInterp and vrInterp changes neither the velocity update_v
produces nor the species RHS. -/
theorem quasi2d_default_1d_path (x hh : ℕ → ℚ) (sys : ConvectionSystemY) (t : ℚ)
    (vz vr : ℚ → ℚ → ℚ) (Y : ℕ → ℚ) (hq : sys.quasi2d = false) :
    mkConvectionSystemY.quasi2d = false
    ∧ (∀ j, update_v x sys t j = interp1 sys.vInterp t j)
    ∧ update_v x { sys with vzInterp := vz, vrInterp := vr } t = update_v x sys t
    ∧ species_rhs hh x { sys with vzInterp := vz, vrInterp := vr } t Y
        = species_rhs hh x sys t Y := by
  refine ⟨rfl, ?_, ?_, ?_⟩
  · intro j
    simp [update_v, hq]
  · funext j
    simp [update_v, hq]
  · funext j
    simp [species_rhs, species_f, update_v, speciesDYdxA, speciesYeffA, hq]

/-- C10 witness: the 1D path instantiated at sampleSpecies, whose quasi2d
flag is false, with arbitrary concrete quasi-2D interpolators installed. -/
theorem quasi2d_default_1d_path_witness :
    mkConvectionSystemY.quasi2d = false
    ∧ (∀ j, update_v (fun i => (i : ℚ)) sampleSpecies 0 j
        = interp1 sampleSpecies.vInterp 0 j)
    ∧ update_v (fun i => (i : ℚ))
        { sampleSpecies with vzInterp := fun _ _ => 5, vrInterp := fun _ _ => 7 } 0
        = update_v (fun i => (i : ℚ)) sampleSpecies 0 := by
  have h := quasi2d_default_1d_path (fun i => (i : ℚ)) (fun _ => 1) sampleSpecies 0
    (fun _ _ => 5) (fun _ _ => 7) (fun _ => 0) rfl
  exact ⟨h.1, h.2.1, h.2.2.1⟩

/-- C4: evaluate() is idempotent and does not advance time: a second call
recomputes exactly the same V, rho, dUdt, dTdt, dWdt and dYdt, and the state
variables U, T, Wmx (inside the UTW system) and Y are left untouched by an
evaluation. -/
theorem evaluate_idempotent (c : ConvectionSystemSplit) :
    evaluate (evaluate c) = evaluate c
    ∧ (evaluate c).utw = c.utw
    ∧ (evaluate c).Y = c.Y
    ∧ (evaluate c).t = c.t := by
  exact ⟨rfl, rfl, rfl, rfl⟩

/-- C7: the spatial derivatives of both the UTW RHS and the species RHS are
upwinded by the sign of the local velocity: at every interior node j, when
V[j] is nonnegative the output time derivative is built from the backward
difference over hh[j-1], otherwise from the forward difference over hh[j];
the species RHS applies the same rule at its active interior nodes with its
own velocity array v (the field values are the Dirichlet adjusted ones). -/
theorem upwind_direction_rule (s : ConvectionSystemUTW) (j : ℕ) (hj : 1 ≤ j)
    (hh v : ℕ → ℚ) (sys : ConvectionSystemY) (Y : ℕ → ℚ) (js : ℕ)
    (h1 : sys.startIndex < js) (h2 : js < sys.stopIndex) :
    utw_dUdt s j = -utw_V s j *
      (if 0 ≤ utw_V s j then (s.U j - s.U (j - 1)) / s.hh (j - 1)
       else (s.U (j + 1) - s.U j) / s.hh j) + s.splitConstU j
    ∧ utw_dTdt s j = -utw_V s j *
      (if 0 ≤ utw_V s j then (utwT s j - utwT s (j - 1)) / s.hh (j - 1)
       else (utwT s (j + 1) - utwT s j) / s.hh j) + s.splitConstT j
    ∧ utw_dWdt s j = -utw_V s j *
      (if 0 ≤ utw_V s j then (utwW s j - utwW s (j - 1)) / s.hh (j - 1)
       else (utwW s (j + 1) - utwW s j) / s.hh j) + s.splitConstW j
    ∧ species_f hh v sys Y js = -v js *
      (if 0 ≤ v js then
        (speciesYeffA sys.startIndex sys.Yleft Y js
          - speciesYeffA sys.startIndex sys.Yleft Y (js - 1)) / hh (js - 1)
       else (speciesYeffA sys.startIndex sys.Yleft Y (js + 1)
          - speciesYeffA sys.startIndex sys.Yleft Y js) / hh js) + sys.splitConst js := by
  have hj0 : j ≠ 0 := by omega
  have hns : ¬ (sys.stopIndex - sys.startIndex < 2) := by omega
  have hnr : ¬ (js < sys.startIndex ∨ sys.stopIndex < js) := by omega
  have hne : ¬ (js = sys.startIndex ∧ 0 < sys.startIndex) := by omega
  refine ⟨?_, ?_, ?_, ?_⟩
  · simp [utw_dUdt, utw_dUdx, upwindA, hj0]
  · simp [utw_dTdt, utw_dTdx, upwindA, hj0]
  · simp [utw_dWdt, utw_dWdx, upwindA, hj0]
  · simp [species_f, speciesDYdxA, hns, hnr, hne]

/-- C7 witness: the upwind rule applied at interior node 1 of sampleSys
(where V = 0, so the backward branch is taken) and at interior node 1 of
sampleSpecies with unit velocity and the field Y i = i. -/
theorem upwind_direction_rule_witness :
    utw_dUdt sampleSys 1 = 0
    ∧ species_f sampleSys.hh (fun _ => 1) sampleSpecies (fun i => (i : ℚ)) 1 = -1 := by
  have h := upwind_direction_rule sampleSys 1 (by decide) sampleSys.hh (fun _ => 1)
    sampleSpecies (fun i => (i : ℚ)) 1 (by decide) (by decide)
  constructor
  · rw [h.1]
    norm_num [sampleSys, utw_V, utw_rV, rV_integrate, rV_stepR, contTerm, contTermA,
      utwRho, utwT, utwW, anchorIndexA, anchorValueA]
  · rw [h.2.2.2]
    norm_num [sampleSpecies, sampleSys, speciesYeffA]

/-- C3 counterexample: at node 0 the temperature derivative is pinned to zero
by the Dirichlet prescription, so perturbing splitConstT[0] by one changes
dT/dt[0] by zero, not by one: the claim as stated, which asserts the unit
change at a fixed but arbitrary node for splitConstT, fails at node 0. -/
theorem splitConst_linearity_counterexample :
    cexSplitT.splitConstT 0 = sampleSys.splitConstT 0 + 1
    ∧ (∀ i, i ≠ 0 → cexSplitT.splitConstT i = sampleSys.splitConstT i)
    ∧ cexSplitT.splitConstU = sampleSys.splitConstU
    ∧ cexSplitT.splitConstW = sampleSys.splitConstW
    ∧ utw_dTdt cexSplitT 0 - utw_dTdt sampleSys 0 ≠ 1 := by
  refine ⟨by norm_num [cexSplitT, sampleSys], ?_, rfl, rfl, ?_⟩
  · intro i hi
    simp [cexSplitT, sampleSys, hi]
  · simp [utw_dTdt]

/-- C3 (amended): the RHS output is affine with unit coefficient in each
split constant at the nodes where the corresponding derivative formula
applies: perturbing splitConstU[j] by d changes dU/dt[j] by exactly d at
every node, perturbing splitConstT[j] or splitConstW[j] changes dT/dt[j]
or dWmx/dt[j] by exactly d at every node j at or past 1 (at node 0 these
derivatives are pinned to zero by the Dirichlet prescription), and
perturbing a species splitConst[j] changes dY/dt[j] by exactly d at the
active nodes of a species whose range has at least two cells; in every case
no other output component changes. -/
theorem splitConst_linearity_amended (s : ConvectionSystemUTW) (j : ℕ) (d : ℚ)
    (hh v : ℕ → ℚ) (sys : ConvectionSystemY) (Y : ℕ → ℚ)
    (hs1 : sys.startIndex ≤ j) (hs2 : j ≤ sys.stopIndex)
    (hs3 : 2 ≤ sys.stopIndex - sys.startIndex) :
    (utw_dUdt { s with splitConstU := updAt s.splitConstU j d } j = utw_dUdt s j + d)
    ∧ (∀ i, i ≠ j →
        utw_dUdt { s with splitConstU := updAt s.splitConstU j d } i = utw_dUdt s i)
    ∧ utw_dTdt { s with splitConstU := updAt s.splitConstU j d } = utw_dTdt s
    ∧ utw_dWdt { s with splitConstU := updAt s.splitConstU j d } = utw_dWdt s
    ∧ utw_V { s with splitConstU := updAt s.splitConstU j d } = utw_V s
    ∧ utw_rV { s with splitConstU := updAt s.splitConstU j d } = utw_rV s
    ∧ utwRho { s with splitConstU := updAt s.splitConstU j d } = utwRho s
    ∧ (1 ≤ j →
        utw_dTdt { s with splitConstT := updAt s.splitConstT j d } j = utw_dTdt s j + d)
    ∧ (∀ i, i ≠ j →
        utw_dTdt { s with splitConstT := updAt s.splitConstT j d } i = utw_dTdt s i)
    ∧ utw_dUdt { s with splitConstT := updAt s.splitConstT j d } = utw_dUdt s
    ∧ utw_dWdt { s with splitConstT := updAt s.splitConstT j d } = utw_dWdt s
    ∧ utw_V { s with splitConstT := updAt s.splitConstT j d } = utw_V s
    ∧ utw_rV { s with splitConstT := updAt s.splitConstT j d } = utw_rV s
    ∧ utwRho { s with splitConstT := updAt s.splitConstT j d } = utwRho s
    ∧ (1 ≤ j →
        utw_dWdt { s with splitConstW := updAt s.splitConstW j d } j = utw_dWdt s j + d)
    ∧ (∀ i, i ≠ j →
        utw_dWdt { s with splitConstW := updAt s.splitConstW j d } i = utw_dWdt s i)
    ∧ utw_dUdt { s with splitConstW := updAt s.splitConstW j d } = utw_dUdt s
    ∧ utw_dTdt { s with splitConstW := updAt s.splitConstW j d } = utw_dTdt s
    ∧ utw_V { s with splitConstW := updAt s.splitConstW j d } = utw_V s
    ∧ utw_rV { s with splitConstW := updAt s.splitConstW j d } = utw_rV s
    ∧ utwRho { s with splitConstW := updAt s.splitConstW j d } = utwRho s
    ∧ (species_f hh v { sys with splitConst := updAt sys.splitConst j d } Y j
        = species_f hh v sys Y j + d)
    ∧ (∀ i, i ≠ j →
        species_f hh v { sys with splitConst := updAt sys.splitConst j d } Y i
          = species_f hh v sys Y i) := by
  have hns : ¬ (sys.stopIndex - sys.startIndex < 2) := by omega
  have hnr : ¬ (j < sys.startIndex ∨ sys.stopIndex < j) := by omega
  refine ⟨?_, ?_, rfl, rfl, rfl, rfl, rfl, ?_, ?_, rfl, rfl, rfl, rfl, rfl,
    ?_, ?_, rfl, rfl, rfl, rfl, rfl, ?_, ?_⟩
  · by_cases hj : j = 0
    · subst hj
      show updAt s.splitConstU 0 d 0 = s.splitConstU 0 + d
      exact updAt_self _ _ _
    · simp only [utw_dUdt, if_neg hj, utw_V_updU, utw_dUdx_updU, updAt_self]
      ring
  · intro i hi
    by_cases hi0 : i = 0
    · subst hi0
      show updAt s.splitConstU j d 0 = s.splitConstU 0
      exact updAt_other _ _ _ _ hi
    · simp only [utw_dUdt, if_neg hi0, utw_V_updU, utw_dUdx_updU]
      rw [updAt_other _ _ _ _ hi]
  · intro hj
    have hj0 : j ≠ 0 := by omega
    simp only [utw_dTdt, if_neg hj0, utw_V_updT, utw_dTdx_updT, updAt_self]
    ring
  · intro i hi
    by_cases hi0 : i = 0
    · subst hi0
      rfl
    · simp only [utw_dTdt, if_neg hi0, utw_V_updT, utw_dTdx_updT]
      rw [updAt_other _ _ _ _ hi]
  · intro hj
    have hj0 : j ≠ 0 := by omega
    simp only [utw_dWdt, if_neg hj0, utw_V_updW, utw_dWdx_updW, updAt_self]
    ring
  · intro i hi
    by_cases hi0 : i = 0
    · subst hi0
      rfl
    · simp only [utw_dWdt, if_neg hi0, utw_V_updW, utw_dWdx_updW]
      rw [updAt_other _ _ _ _ hi]
  · simp only [species_f]
    rw [if_neg hns, if_neg hns, if_neg hnr, if_neg hnr, updAt_self]
    ring
  · intro i hi
    simp only [species_f, updAt]
    rw [if_neg hi]

/-- C3 witness: the amended linearity instantiated at node 1 of sampleSys
with perturbation one, and at node 1 of sampleSpecies. -/
theorem splitConst_linearity_amended_witness :
    (utw_dUdt { sampleSys with splitConstU := updAt sampleSys.splitConstU 1 1 } 1
      = utw_dUdt sampleSys 1 + 1)
    ∧ (utw_dTdt { sampleSys with splitConstT := updAt sampleSys.splitConstT 1 1 } 1
      = utw_dTdt sampleSys 1 + 1)
    ∧ (utw_dWdt { sampleSys with splitConstW := updAt sampleSys.splitConstW 1 1 } 1
      = utw_dWdt sampleSys 1 + 1)
    ∧ (species_f sampleSys.hh (fun _ => 1)
        { sampleSpecies with splitConst := updAt sampleSpecies.splitConst 1 1 } (fun _ => 0) 1
      = species_f sampleSys.hh (fun _ => 1) sampleSpecies (fun _ => 0) 1 + 1) := by
  have h := splitConst_linearity_amended sampleSys 1 1 sampleSys.hh (fun _ => 1)
    sampleSpecies (fun _ => 0) (by decide) (by decide) (by decide)
  obtain ⟨hU1, _, _, _, _, _, _, hT1, _, _, _, _, _, _, hW1, _, _, _, _, _, _, hY1, _⟩ := h
  exact ⟨hU1, hT1 (by decide), hW1 (by decide), hY1⟩

/-- C5: a Qdot update with a nonempty qdot succeeds and selects jContBC as an
index maximizing qdot, and the subsequent continuity integration of the RHS
fixes rV[jContBC] = 0 and integrates outward from that node in both
directions: rightward every next value subtracts the cell term, leftward
every previous value adds it back. -/
theorem qdot_bc_argmax_and_outward (s s1 : ConvectionSystemUTW) (qdot : List ℚ)
    (e : Bool) (hne : qdot ≠ [])
    (h : updateContinuityBoundaryCondition s qdot ContinuityBC.Qdot = (s1, e)) :
    e = false
    ∧ s1.continuityBC = ContinuityBC.Qdot
    ∧ s1.jContBC < qdot.length
    ∧ (∀ i, i < qdot.length → qdot.getD i 0 ≤ qdot.getD s1.jContBC 0)
    ∧ utw_rV s1 s1.jContBC = 0
    ∧ (∀ i, s1.jContBC ≤ i →
        utw_rV s1 (i + 1) = utw_rV s1 i - s1.hh i * contTerm s1 i)
    ∧ (∀ i, i < s1.jContBC →
        utw_rV s1 i = utw_rV s1 (i + 1) + s1.hh i * contTerm s1 i) := by
  cases qdot with
  | nil => exact absurd rfl hne
  | cons a t =>
    simp only [updateContinuityBoundaryCondition] at h
    injection h with h1 h2
    subst h1
    subst h2
    refine ⟨rfl, rfl, argmaxIdx_lt_length (a :: t) (by simp), ?_, ?_, ?_, ?_⟩
    · intro i hi
      exact argmaxIdx_is_max (a :: t) i hi
    · rw [utw_rV_of_qdot _ rfl, rV_integrate_self]
    · intro i hi
      rw [utw_rV_of_qdot _ rfl]
      exact rV_integrate_succ_of_le _ _ _ _ i hi
    · intro i hi
      rw [utw_rV_of_qdot _ rfl]
      exact rV_integrate_of_lt _ _ _ _ i hi

/-- C5 witness: the Qdot selection at sampleSys with the profile [1, 3, 2],
whose argmax index is 1; the produced system is qdotSys. -/
theorem qdot_bc_argmax_and_outward_witness :
    qdotSys.continuityBC = ContinuityBC.Qdot
    ∧ qdotSys.jContBC < ([1, 3, 2] : List ℚ).length
    ∧ (∀ i, i < ([1, 3, 2] : List ℚ).length →
        ([1, 3, 2] : List ℚ).getD i 0 ≤ ([1, 3, 2] : List ℚ).getD qdotSys.jContBC 0)
    ∧ utw_rV qdotSys qdotSys.jContBC = 0 := by
  have h := qdot_bc_argmax_and_outward sampleSys qdotSys [1, 3, 2] false (by simp) rfl
  exact ⟨h.2.1, h.2.2.1, h.2.2.2.1, h.2.2.2.2.1⟩

/-- C6: updateContinuityBoundaryCondition is atomic on misconfiguration and
touches only the continuity condition data otherwise: a Qdot request with an
empty qdot, or a Zero request when rV has no sign change, reports an error
and returns the state unchanged; a valid Left, Qdot or Zero request reports
no error, installs the requested condition, recomputes jContBC and xVzero
only when the condition requires them, and preserves every other field. -/
theorem updateContinuityBC_atomic (s : ConvectionSystemUTW) (qdot : List ℚ) (j : ℕ) :
    updateContinuityBoundaryCondition s [] ContinuityBC.Qdot = (s, true)
    ∧ ((∀ i, i + 1 < s.nPoints → 0 < utw_rV s i * utw_rV s (i + 1)) →
        updateContinuityBoundaryCondition s qdot ContinuityBC.Zero = (s, true))
    ∧ (qdot ≠ [] →
        (updateContinuityBoundaryCondition s qdot ContinuityBC.Qdot).2 = false
        ∧ (updateContinuityBoundaryCondition s qdot ContinuityBC.Qdot).1.continuityBC
            = ContinuityBC.Qdot
        ∧ (updateContinuityBoundaryCondition s qdot ContinuityBC.Qdot).1.xVzero = s.xVzero
        ∧ preservedUTW (updateContinuityBoundaryCondition s qdot ContinuityBC.Qdot).1 s)
    ∧ (findCrossing (utw_rV s) (s.nPoints - 1) = some j →
        (updateContinuityBoundaryCondition s qdot ContinuityBC.Zero).2 = false
        ∧ (updateContinuityBoundaryCondition s qdot ContinuityBC.Zero).1.continuityBC
            = ContinuityBC.Zero
        ∧ (updateContinuityBoundaryCondition s qdot ContinuityBC.Zero).1.jContBC = j
        ∧ preservedUTW (updateContinuityBoundaryCondition s qdot ContinuityBC.Zero).1 s)
    ∧ ((updateContinuityBoundaryCondition s qdot ContinuityBC.Left).2 = false
        ∧ (updateContinuityBoundaryCondition s qdot ContinuityBC.Left).1.continuityBC
            = ContinuityBC.Left
        ∧ (updateContinuityBoundaryCondition s qdot ContinuityBC.Left).1.jContBC = s.jContBC
        ∧ (updateContinuityBoundaryCondition s qdot ContinuityBC.Left).1.xVzero = s.xVzero
        ∧ preservedUTW (updateContinuityBoundaryCondition s qdot ContinuityBC.Left).1 s) := by
  refine ⟨rfl, ?_, ?_, ?_, ?_⟩
  · intro hpos
    have hnone : findCrossing (utw_rV s) (s.nPoints - 1) = none :=
      findCrossing_eq_none (utw_rV s) (s.nPoints - 1) (fun i hi => hpos i (by omega))
    simp only [updateContinuityBoundaryCondition, hnone]
  · intro hne
    cases qdot with
    | nil => exact absurd rfl hne
    | cons a t =>
      exact ⟨rfl, rfl, rfl,
        rfl, rfl, rfl, rfl, rfl, rfl, rfl, rfl, rfl, rfl, rfl, rfl, rfl, rfl, rfl, rfl, rfl, rfl⟩
  · intro hc
    have heq : updateContinuityBoundaryCondition s qdot ContinuityBC.Zero
        = ({ s with continuityBC := ContinuityBC.Zero
                    jContBC := j
                    xVzero := s.x j + (s.x (j + 1) - s.x j) *
                      (utw_rV s j / (utw_rV s j - utw_rV s (j + 1))) }, false) := by
      simp only [updateContinuityBoundaryCondition, hc]
    rw [heq]
    exact ⟨rfl, rfl, rfl,
      rfl, rfl, rfl, rfl, rfl, rfl, rfl, rfl, rfl, rfl, rfl, rfl, rfl, rfl, rfl, rfl, rfl, rfl⟩
  · exact ⟨rfl, rfl, rfl, rfl,
      rfl, rfl, rfl, rfl, rfl, rfl, rfl, rfl, rfl, rfl, rfl, rfl, rfl, rfl, rfl, rfl, rfl, rfl⟩

/-- C6 witness: the error and success branches at concrete systems: flatSys
(mass flux identically one, no sign change, so a Zero request errors and the
state is unchanged) and cexSys (whose rV changes sign across cell 0, so a
Zero request succeeds and installs jContBC = 0). -/
theorem updateContinuityBC_atomic_witness :
    updateContinuityBoundaryCondition flatSys [] ContinuityBC.Qdot = (flatSys, true)
    ∧ updateContinuityBoundaryCondition flatSys [] ContinuityBC.Zero = (flatSys, true)
    ∧ (updateContinuityBoundaryCondition cexSys [1] ContinuityBC.Zero).2 = false
    ∧ (updateContinuityBoundaryCondition cexSys [1] ContinuityBC.Zero).1.jContBC = 0 := by
  have h1 := updateContinuityBC_atomic flatSys [] 0
  have h2 := updateContinuityBC_atomic cexSys [1] 0
  have hcross : findCrossing (utw_rV cexSys) (cexSys.nPoints - 1) = some 0 := by
    norm_num [findCrossing, cexSys, sampleSys, utw_rV, rV_integrate, rV_stepR,
      contTerm, contTermA, utwRho, utwT, utwW, anchorIndexA, anchorValueA]
  have hzero := h2.2.2.2.1 hcross
  refine ⟨h1.1, h1.2.1 ?_, hzero.1, hzero.2.2.1⟩
  intro i hi
  have hn : flatSys.nPoints = 3 := rfl
  have h01 : i = 0 ∨ i = 1 := by omega
  rcases h01 with rfl | rfl
  · norm_num [flatSys, sampleSys, utw_rV, rV_integrate, rV_stepR, contTerm, contTermA,
      utwRho, utwT, utwW, anchorIndexA, anchorValueA]
  · norm_num [flatSys, sampleSys, utw_rV, rV_integrate, rV_stepR, contTerm, contTermA,
      utwRho, utwT, utwW, anchorIndexA, anchorValueA]

end Ember
